import Mathlib

/-!
Verification of the Insta-chat-analyzer extraction-and-aggregation pipeline
(`insta_analyser.py`) against its specification.

The Python source is shallowly embedded: HTML blocks become a `Block` record
holding the already-extracted text fields, uploaded documents become a
`Document` sum (corrupt vs. parsed blocks), `datetime.strptime` for the four
fixed formats is modelled character-by-character following CPython's
`_strptime` regexes, and the permissive fallback `pd.to_datetime(.,
errors='coerce')` (an external library call) is a function parameter
returning `Option DateTime` (`none` models `NaT`; that call never raises).
Aggregations from `build_dashboard` are functions of the row list.
-/

/-- Naive datetime as produced by `datetime.strptime` / `pd.to_datetime`
(year, month, day, hour, minute, second). -/
structure DateTime where
  year : Nat
  month : Nat
  day : Nat
  hour : Nat
  minute : Nat
  second : Nat
deriving DecidableEq

/-- Boolean test that `pat` occurs at the start of `l`. -/
def startsL : List Char → List Char → Bool
  | [], _ => true
  | _ :: _, [] => false
  | c :: cs, d :: ds => c = d && startsL cs ds

/-- Boolean test that `pat` occurs somewhere inside `l` (Python `pat in l`). -/
def subL (pat : List Char) : List Char → Bool
  | [] => startsL pat []
  | l@(_ :: rest) => startsL pat l || subL pat rest

/-- Python substring containment `needle in hay` for strings. -/
def strContains (hay needle : String) : Bool :=
  subL needle.toList hay.toList

/-! ## Emoji extraction (`EMOJI_PATTERN`, `extract_emojis`) -/

/-- Character class of `EMOJI_PATTERN`: the union of the fixed codepoint
ranges listed in the source regex. -/
def isEmojiChar (c : Char) : Bool :=
  let n := c.toNat
  (0x1F300 ≤ n && n ≤ 0x1F5FF) ||
  (0x1F600 ≤ n && n ≤ 0x1F64F) ||
  (0x1F680 ≤ n && n ≤ 0x1F6FF) ||
  (0x1F700 ≤ n && n ≤ 0x1F77F) ||
  (0x1F780 ≤ n && n ≤ 0x1F7FF) ||
  (0x1F800 ≤ n && n ≤ 0x1F8FF) ||
  (0x1FA00 ≤ n && n ≤ 0x1FA6F) ||
  (0x1FA70 ≤ n && n ≤ 0x1FAFF) ||
  (0x2600 ≤ n && n ≤ 0x26FF) ||
  (0x2700 ≤ n && n ≤ 0x27BF)

/-- Left-to-right scan implementing `EMOJI_PATTERN.findall`: the pattern is a
character class followed by `+`, so `findall` returns the greedy,
non-overlapping (hence maximal) in-range runs in order.  `acc` holds the
current run reversed. -/
def emojiRunsAux : List Char → List Char → List (List Char)
  | [], acc => if acc = [] then [] else [acc.reverse]
  | c :: rest, acc =>
    if isEmojiChar c then emojiRunsAux rest (c :: acc)
    else if acc = [] then emojiRunsAux rest []
    else acc.reverse :: emojiRunsAux rest []

/-- Embedding of a Python value passed to `extract_emojis`: a string or one
of the non-string shapes the dashboard could feed it. -/
inductive PyVal where
  | pyStr (s : String)
  | pyInt (n : Int)
  | pyBool (b : Bool)
  | pyNone
deriving DecidableEq

/-- `extract_emojis`: `[]` unless the input is a string (the
`isinstance(text, str)` guard), else `EMOJI_PATTERN.findall(text)`. -/
def extract_emojis : PyVal → List String
  | .pyStr s => (emojiRunsAux s.toList []).map List.asString
  | _ => []

theorem lengthDropWhileLe (p : Char → Bool) (l : List Char) :
    (l.dropWhile p).length ≤ l.length := by
  induction l with
  | nil => simp [List.dropWhile]
  | cons c rest ih =>
    rw [List.dropWhile_cons]
    by_cases h : p c
    · simp only [h, if_true]
      exact Nat.le_succ_of_le ih
    · simp [h]

/-- Maximal contiguous in-range runs, stated the way the spec describes them:
each run is the maximal (`takeWhile`) prefix of in-range characters at the
point where a run starts. -/
def specRuns : List Char → List (List Char)
  | [] => []
  | c :: rest =>
    if isEmojiChar c then
      (c :: rest.takeWhile isEmojiChar) :: specRuns (rest.dropWhile isEmojiChar)
    else specRuns rest
termination_by l => l.length
decreasing_by
  · simp only [List.length_cons]
    exact Nat.lt_succ_of_le (lengthDropWhileLe _ _)
  · simp

theorem specRuns_cons (c : Char) (rest : List Char) :
    specRuns (c :: rest) =
      if isEmojiChar c then
        (c :: rest.takeWhile isEmojiChar) :: specRuns (rest.dropWhile isEmojiChar)
      else specRuns rest := by
  rw [specRuns.eq_def]

/-! ## Temporal normalizer

The loop in `build_dashboard` tries, in order, the `strptime` formats
`"%b %d, %Y %I:%M %p"`, `"%Y-%m-%d %H:%M:%S"`, `"%d %b %Y %H:%M"`,
`"%Y-%m-%d"`, breaking on the first success; on total failure it falls back
to `pd.to_datetime(time_str, errors='coerce')` and rows with a null result
are dropped.  CPython's `_strptime` compiles each directive to a regex
(`%Y` four digits; `%d` `3[01]|[12]\d|0[1-9]|[1-9]`; `%m`/`%I`
`1[0-2]|0[1-9]|[1-9]`; `%H` `2[0-3]|[0-1]\d|\d`; `%M` `[0-5]\d|\d`; `%b`,
`%p` case-insensitive names; format whitespace matches one-or-more
whitespace), anchors at the start, and raises if input remains; the
`datetime` constructor then validates ranges (year 1..9999, day within the
month, second 0..59).  The numeric-field parsers below take a two-digit
match when its value fits the directive's regex and otherwise a single
digit, which agrees with the regex-with-backtracking result for these four
formats because every directive is followed by a non-digit (separator,
whitespace, letters, or end of input). -/

/-- Numeric value of a decimal digit character. -/
def digitVal (c : Char) : Nat := c.toNat - '0'.toNat

/-- Directive regexes rejecting `00` and a leading-zero-free single digit
(`%d`, `%m`, `%I`): take two digits when the value is in `1..maxV`,
otherwise one digit in `1..9`. -/
def numField1 (maxV : Nat) : List Char → Option (Nat × List Char)
  | a :: b :: rest =>
    if a.isDigit && b.isDigit then
      let v := digitVal a * 10 + digitVal b
      if 1 ≤ v ∧ v ≤ maxV then some (v, rest)
      else if 1 ≤ digitVal a then some (digitVal a, b :: rest)
      else none
    else if a.isDigit && decide (1 ≤ digitVal a) then some (digitVal a, b :: rest)
    else none
  | [a] => if a.isDigit && decide (1 ≤ digitVal a) then some (digitVal a, []) else none
  | [] => none

/-- Directive regexes accepting `00` and any single digit (`%H`, `%M`,
`%S`): take two digits when the value is at most `maxV`, otherwise one
digit. -/
def numField0 (maxV : Nat) : List Char → Option (Nat × List Char)
  | a :: b :: rest =>
    if a.isDigit && b.isDigit then
      let v := digitVal a * 10 + digitVal b
      if v ≤ maxV then some (v, rest) else some (digitVal a, b :: rest)
    else if a.isDigit then some (digitVal a, b :: rest)
    else none
  | [a] => if a.isDigit then some (digitVal a, []) else none
  | [] => none

/-- `%Y`: exactly four digits. -/
def take4Digits : List Char → Option (Nat × List Char)
  | a :: b :: c :: d :: rest =>
    if a.isDigit && b.isDigit && c.isDigit && d.isDigit then
      some (((digitVal a * 10 + digitVal b) * 10 + digitVal c) * 10 + digitVal d, rest)
    else none
  | _ => none

/-- Whitespace in a `strptime` format: one or more whitespace characters. -/
def skipWs1 : List Char → Option (List Char)
  | c :: rest => if c.isWhitespace then some (rest.dropWhile Char.isWhitespace) else none
  | [] => none

/-- A literal character of the format. -/
def lit (c : Char) : List Char → Option (List Char)
  | d :: rest => if d = c then some rest else none
  | [] => none

/-- C-locale abbreviated month names, lowercased (`%b` matches
case-insensitively). -/
def monthAbbrevs : List String :=
  ["jan", "feb", "mar", "apr", "may", "jun", "jul", "aug", "sep", "oct", "nov", "dec"]

/-- `%b`: three letters naming a month, case-insensitive. -/
def parseMonthAbbrev : List Char → Option (Nat × List Char)
  | a :: b :: c :: rest =>
    match monthAbbrevs.findIdx? (fun m => m = String.mk [a.toLower, b.toLower, c.toLower]) with
    | some i => some (i + 1, rest)
    | none => none
  | _ => none

/-- `%p`: `am` or `pm`, case-insensitive; `true` means PM. -/
def parseAmPm : List Char → Option (Bool × List Char)
  | a :: b :: rest =>
    if String.mk [a.toLower, b.toLower] = "am" then some (false, rest)
    else if String.mk [a.toLower, b.toLower] = "pm" then some (true, rest)
    else none
  | _ => none

/-- Gregorian leap year, as `calendar.isleap` / `datetime`. -/
def isLeap (y : Nat) : Bool := y % 4 = 0 && (y % 100 ≠ 0 || y % 400 = 0)

/-- Number of days in a month. -/
def daysInMonth (y m : Nat) : Nat :=
  if m = 2 then (if isLeap y then 29 else 28)
  else if m = 4 ∨ m = 6 ∨ m = 9 ∨ m = 11 then 30
  else 31

/-- Range checks of the `datetime` constructor; `strptime` raises
`ValueError` (caught by the loop) when they fail. -/
def mkValid (y mo d h mi s : Nat) : Option DateTime :=
  if 1 ≤ y ∧ y ≤ 9999 ∧ 1 ≤ mo ∧ mo ≤ 12 ∧ 1 ≤ d ∧ d ≤ daysInMonth y mo
      ∧ h ≤ 23 ∧ mi ≤ 59 ∧ s ≤ 59 then
    some ⟨y, mo, d, h, mi, s⟩
  else none

/-- `datetime.strptime(s, "%b %d, %Y %I:%M %p")`. -/
def parseFmt1 (l : List Char) : Option DateTime := do
  let (mo, r1) ← parseMonthAbbrev l
  let r2 ← skipWs1 r1
  let (d, r3) ← numField1 31 r2
  let r4 ← lit ',' r3
  let r5 ← skipWs1 r4
  let (y, r6) ← take4Digits r5
  let r7 ← skipWs1 r6
  let (h12, r8) ← numField1 12 r7
  let r9 ← lit ':' r8
  let (mi, r10) ← numField0 59 r9
  let r11 ← skipWs1 r10
  let (pm, r12) ← parseAmPm r11
  if r12 = [] then
    mkValid y mo d (if pm then (if h12 = 12 then 12 else h12 + 12)
                    else (if h12 = 12 then 0 else h12)) mi 0
  else none

/-- `datetime.strptime(s, "%Y-%m-%d %H:%M:%S")`. -/
def parseFmt2 (l : List Char) : Option DateTime := do
  let (y, r1) ← take4Digits l
  let r2 ← lit '-' r1
  let (mo, r3) ← numField1 12 r2
  let r4 ← lit '-' r3
  let (d, r5) ← numField1 31 r4
  let r6 ← skipWs1 r5
  let (h, r7) ← numField0 23 r6
  let r8 ← lit ':' r7
  let (mi, r9) ← numField0 59 r8
  let r10 ← lit ':' r9
  let (s, r11) ← numField0 59 r10
  if r11 = [] then mkValid y mo d h mi s else none

/-- `datetime.strptime(s, "%d %b %Y %H:%M")`. -/
def parseFmt3 (l : List Char) : Option DateTime := do
  let (d, r1) ← numField1 31 l
  let r2 ← skipWs1 r1
  let (mo, r3) ← parseMonthAbbrev r2
  let r4 ← skipWs1 r3
  let (y, r5) ← take4Digits r4
  let r6 ← skipWs1 r5
  let (h, r7) ← numField0 23 r6
  let r8 ← lit ':' r7
  let (mi, r9) ← numField0 59 r8
  if r9 = [] then mkValid y mo d h mi 0 else none

/-- `datetime.strptime(s, "%Y-%m-%d")`. -/
def parseFmt4 (l : List Char) : Option DateTime := do
  let (y, r1) ← take4Digits l
  let r2 ← lit '-' r1
  let (mo, r3) ← numField1 12 r2
  let r4 ← lit '-' r3
  let (d, r5) ← numField1 31 r4
  if r5 = [] then mkValid y mo d 0 0 0 else none

/-- The `for fmt in (...)` loop: first format that parses wins. -/
def tryFormats (s : String) : Option DateTime :=
  match parseFmt1 s.toList with
  | some d => some d
  | none =>
    match parseFmt2 s.toList with
    | some d => some d
    | none =>
      match parseFmt3 s.toList with
      | some d => some d
      | none => parseFmt4 s.toList

/-- The whole normalizer: the format loop, then the permissive
`pd.to_datetime(., errors='coerce')` fallback `fb` (`none` models `NaT`). -/
def normalizeTime (fb : String → Option DateTime) (s : String) : Option DateTime :=
  match tryFormats s with
  | some d => some d
  | none => fb s

theorem emojiRunsAux_eq (l : List Char) :
    ∀ acc : List Char,
      emojiRunsAux l acc =
        if acc = [] then specRuns l
        else (acc.reverse ++ l.takeWhile isEmojiChar) ::
          specRuns (l.dropWhile isEmojiChar) := by
  induction l with
  | nil =>
    intro acc
    by_cases h : acc = [] <;> simp [emojiRunsAux, specRuns, h]
  | cons c rest ih =>
    intro acc
    by_cases hc : isEmojiChar c
    · have step : emojiRunsAux (c :: rest) acc = emojiRunsAux rest (c :: acc) := by
        simp [emojiRunsAux, hc]
      rw [step, ih (c :: acc)]
      have hne : (c :: acc) ≠ [] := by simp
      rw [if_neg hne]
      by_cases h : acc = []
      · subst h
        simp [specRuns, hc, List.takeWhile_cons, List.dropWhile_cons]
      · rw [if_neg h]
        simp [List.takeWhile_cons, hc, List.dropWhile_cons, List.append_assoc]
    · by_cases h : acc = []
      · subst h
        have step : emojiRunsAux (c :: rest) [] = emojiRunsAux rest [] := by
          simp [emojiRunsAux, hc]
        rw [step, ih [], if_pos rfl, if_pos rfl]
        rw [specRuns_cons]
        simp [hc]
      · have step : emojiRunsAux (c :: rest) acc = acc.reverse :: emojiRunsAux rest [] := by
          simp [emojiRunsAux, hc, h]
        rw [step, ih [], if_pos rfl, if_neg h]
        rw [List.takeWhile_cons, List.dropWhile_cons]
        simp only [hc, if_false, Bool.false_eq_true, List.append_nil]
        rw [specRuns_cons]
        simp [hc]

/-! ## Markup extractor (`get_messages_dictionary`)

A `Block` is one `div.pam.uiBoxWhite.noborder` node, holding the values the
code reads off it: `text` is `msg.get_text(" ", strip=True)` (the whole
block's visible text), `hasLink` is whether `msg.find('a')` found an `<a>`
tag, and the three sub-field options are the stripped texts of the `h2`,
`div._3-95 _a6-p` and `div._3-94 _a6-o` children when present.  A
`Document` is one uploaded file: `corrupt` when decoding/parsing raises
(the `except` branch), `parsed` with its block list otherwise. -/

structure RawMessage where
  name : String
  message : String
  time : String
deriving DecidableEq

structure Block where
  text : String
  hasLink : Bool
  nameTag : Option String
  messageTag : Option String
  timeTag : Option String
deriving DecidableEq

inductive Document where
  | corrupt (name : String)
  | parsed (blocks : List Block)
deriving DecidableEq

/-- Whether the document's processing raised (decode or parse failure). -/
def Document.isCorrupt : Document → Bool
  | .corrupt _ => true
  | .parsed _ => false

/-- The per-block body of the loop: skip when the block text contains both
`"Reacted"` and `"to your message"` or the block has a link; then skip
incomplete blocks; else emit the record. -/
def extractBlock (b : Block) : Option RawMessage :=
  if (strContains b.text "Reacted" && strContains b.text "to your message")
      || b.hasLink then none
  else
    match b.nameTag, b.messageTag, b.timeTag with
    | some n, some m, some t => some ⟨n, m, t⟩
    | _, _, _ => none

def extractBlocks (bs : List Block) : List RawMessage := bs.filterMap extractBlock

/-- One iteration of the `for uploaded_file in uploaded_files` loop: a
corrupt document adds one `st.warning` and no messages, a parsed one adds
its extracted messages. -/
def gmStep (acc : List RawMessage × List String) : Document → List RawMessage × List String
  | .corrupt nm => (acc.1, acc.2 ++ ["Could not parse file " ++ nm])
  | .parsed bs => (acc.1 ++ extractBlocks bs, acc.2)

/-- `get_messages_dictionary`: fold over the uploaded files, accumulating
messages from parsed documents and one warning string per corrupt
document. -/
def getMessagesDictionary (docs : List Document) : List RawMessage × List String :=
  docs.foldl gmStep ([], [])

/-! ## Row construction (`build_dashboard`, normalization loop) -/

/-- One row of the DataFrame built in `build_dashboard`. -/
structure Row where
  name : String
  message : String
  time : DateTime
  length : Nat
deriving DecidableEq

/-- The `for m in messages` loop: `name or 'Unknown'`, normalize the
timestamp, keep the row only when the result is non-null, with
`length = len(msg)`. -/
def buildRows (fb : String → Option DateTime) (msgs : List RawMessage) : List Row :=
  msgs.filterMap fun m =>
    (normalizeTime fb m.time).map fun dt =>
      ⟨if m.name = "" then "Unknown" else m.name, m.message, dt, m.message.length⟩

/-- Chronological comparison of naive datetimes, as comparing `Timestamp`
values field-lexicographically. -/
def dtLe (a b : DateTime) : Bool :=
  decide (a.year < b.year ∨ (a.year = b.year ∧ (a.month < b.month ∨ (a.month = b.month ∧
    (a.day < b.day ∨ (a.day = b.day ∧ (a.hour < b.hour ∨ (a.hour = b.hour ∧
      (a.minute < b.minute ∨ (a.minute = b.minute ∧ a.second ≤ b.second))))))))))

/-- `pd.DataFrame(rows).sort_values('time')`: the MessageSet, rows in
ascending timestamp order. -/
def messageSet (fb : String → Option DateTime) (msgs : List RawMessage) : List Row :=
  (buildRows fb msgs).mergeSort (fun a b => dtLe a.time b.time)

/-! ## Aggregations (`build_dashboard`) -/

/-- Number of rows with the given sender name. -/
def countName (M : List Row) (s : String) : Nat :=
  (M.filter fun r => decide (r.name = s)).length

/-- `df['name'].value_counts()`: one pair per distinct sender, sorted by
count descending. -/
def senderFrequency (M : List Row) : List (String × Nat) :=
  ((M.map Row.name).dedup.map fun s => (s, countName M s)).mergeSort
    (fun a b => decide (b.2 ≤ a.2))

/-- `df['hour'].value_counts().reindex(range(24), fill_value=0)`: for each
hour 0..23 the number of rows with that hour. -/
def hourHistogram (M : List Row) : List Nat :=
  (List.range 24).map fun h => (M.filter fun r => decide (r.time.hour = h)).length

/-- Zero-padded two-digit rendering of a number below 100. -/
def pad2 (n : Nat) : String := if n < 10 then "0" ++ toString n else toString n

/-- Zero-padded four-digit rendering (`strftime('%Y')`). -/
def pad4 (n : Nat) : String :=
  if n < 10 then "000" ++ toString n
  else if n < 100 then "00" ++ toString n
  else if n < 1000 then "0" ++ toString n
  else toString n

/-- `dt.strftime('%Y-%m')`: the month key. -/
def monthStr (dt : DateTime) : String := pad4 dt.year ++ "-" ++ pad2 dt.month

/-- Sort key used for month columns: `pd.to_datetime(x + '-01')` on a
`"YYYY-MM"` key orders by (year, month), i.e. by `12 * year + month`. -/
def monthVal (s : String) : Nat :=
  match s.toList with
  | [a, b, c, d, dash, e, f] =>
    if a.isDigit && b.isDigit && c.isDigit && d.isDigit && dash = '-'
        && e.isDigit && f.isDigit then
      (((digitVal a * 10 + digitVal b) * 10 + digitVal c) * 10 + digitVal d) * 12
        + (digitVal e * 10 + digitVal f)
    else 0
  | _ => 0

/-- The month columns of the heatmap: the distinct month keys of the data,
sorted chronologically. -/
def monthsOf (M : List Row) : List String :=
  ((M.map fun r => monthStr r.time).dedup).mergeSort
    (fun a b => decide (monthVal a ≤ monthVal b))

/-- `df.groupby(['day','month']).size().unstack(fill_value=0)` reindexed to
days 1..31 with the columns sorted chronologically: one `(month, counts)`
column per month present, each column listing the counts for days 1..31. -/
def heatmap (M : List Row) : List (String × List Nat) :=
  (monthsOf M).map fun mo =>
    (mo, (List.range 31).map fun i =>
      (M.filter fun r => decide (r.time.day = i + 1 ∧ monthStr r.time = mo)).length)

/-! ## Weekly bucketing (`resample('W-MON')`)

Dates are mapped to a day number by the standard civil-from-days formula
(valid for years ≥ 1, all in `Nat`); `1970-01-01` gets day number `719468`,
a Thursday.  `resample('W-MON')` uses weekly bins anchored on Mondays with
the default `closed='right'`/`label='right'` and end-of-day adjusted edges,
so a message is labeled by the first Monday on or after its date (weeks run
Tuesday..Monday). -/

/-- Day number of a civil date (years ≥ 1). -/
def dayNum (y m d : Nat) : Nat :=
  let yAdj := if m ≤ 2 then y - 1 else y
  let era := yAdj / 400
  let yoe := yAdj % 400
  let mp := (m + 9) % 12
  let doy := (153 * mp + 2) / 5 + d - 1
  let doe := yoe * 365 + yoe / 4 - yoe / 100 + doy
  era * 146097 + doe

def dtDayNum (dt : DateTime) : Nat := dayNum dt.year dt.month dt.day

/-- Weekday of a day number, Monday = 0 .. Sunday = 6. -/
def weekdayM (g : Nat) : Nat := (g + 2) % 7

/-- Day number of the `W-MON` bin label of day `g`: the first Monday on or
after `g`. -/
def weekLabelNum (g : Nat) : Nat := g + (7 - weekdayM g) % 7

/-- Modelled from the spec: the spec's "week-start-Monday bucketing" labels
a day by the last Monday on or before it; `insta_analyser.py` itself has no
Monday-start bucketing, only `resample('W-MON')`. -/
def mondayStartNum (g : Nat) : Nat := g - weekdayM g

/-- `df_idx.groupby('name').resample('W-MON').size()` restricted to sender
`s`: contiguous Monday-labeled weekly bins from the sender's first to last
label, with the count of the sender's messages in each bin (zero-filled
inside the range). -/
def weeklySeriesFor (M : List Row) (s : String) : List (Nat × Nat) :=
  let days := (M.filter fun r => decide (r.name = s)).map fun r =>
    weekLabelNum (dtDayNum r.time)
  match days.min?, days.max? with
  | some lo, some hi =>
    (List.range ((hi - lo) / 7 + 1)).map fun i =>
      (lo + 7 * i, (days.filter fun g => decide (g = lo + 7 * i)).length)
  | _, _ => []

/-- `sender_counts['name'].head(5)`: the senders whose weekly series are
drawn.  `n` is `build_dashboard`'s `top_senders_n` parameter (default 10);
the weekly chart ignores it and uses the literal 5. -/
def weeklyTopNames (M : List Row) (_n : Nat) : List String :=
  ((senderFrequency M).map Prod.fst).take 5

/-! ## Helper lemmas -/

theorem sumMapZeroNat {κ : Type} (l : List κ) : (l.map fun _ => (0 : Nat)).sum = 0 := by
  induction l with
  | nil => simp
  | cons k l ih => simp [ih]

theorem sumMapAdd {κ : Type} (f g : κ → Nat) (l : List κ) :
    (l.map fun k => f k + g k).sum = (l.map f).sum + (l.map g).sum := by
  induction l with
  | nil => simp
  | cons k l ih => simp [ih]; omega

theorem sumIteZero {κ : Type} [DecidableEq κ] (x : κ) (l : List κ) (hx : x ∉ l) :
    (l.map fun k => if x = k then 1 else 0).sum = 0 := by
  induction l with
  | nil => simp
  | cons k l ih =>
    have hxk : x ≠ k := by intro h; exact hx (h ▸ List.mem_cons_self k l)
    have hxl : x ∉ l := fun h => hx (List.mem_cons_of_mem k h)
    simp [hxk, ih hxl]

theorem sumIteOne {κ : Type} [DecidableEq κ] (x : κ) (l : List κ)
    (hl : l.Nodup) (hx : x ∈ l) :
    (l.map fun k => if x = k then 1 else 0).sum = 1 := by
  induction l with
  | nil => simp at hx
  | cons k l ih =>
    rcases List.mem_cons.mp hx with h | h
    · subst h
      have hnot : x ∉ l := (List.nodup_cons.mp hl).1
      simp [sumIteZero x l hnot]
    · have hxk : x ≠ k := by
        intro he
        exact (List.nodup_cons.mp hl).1 (he ▸ h)
      simp [hxk, ih (List.nodup_cons.mp hl).2 h]

/-- Summing, over a duplicate-free list of keys covering all elements, the
number of elements mapped to each key gives the number of elements. -/
theorem partitionCount {α κ : Type} [DecidableEq κ] (key : α → κ) (xs : List α) :
    ∀ l : List κ, l.Nodup → (∀ x ∈ xs, key x ∈ l) →
      (l.map fun k => (xs.filter fun x => decide (key x = k)).length).sum = xs.length := by
  induction xs with
  | nil =>
    intro l _ _
    simp [sumMapZeroNat]
  | cons x xs ih =>
    intro l hl hcov
    have hsplit : ∀ k : κ, ((x :: xs).filter fun a => decide (key a = k)).length
        = (if key x = k then 1 else 0) + (xs.filter fun a => decide (key a = k)).length := by
      intro k
      by_cases h : key x = k
      · simp [List.filter_cons, h]; omega
      · simp [List.filter_cons, h]
    calc (l.map fun k => ((x :: xs).filter fun a => decide (key a = k)).length).sum
        = (l.map fun k => (if key x = k then 1 else 0)
            + (xs.filter fun a => decide (key a = k)).length).sum := by
          simp only [hsplit]
      _ = (l.map fun k => if key x = k then 1 else 0).sum
            + (l.map fun k => (xs.filter fun a => decide (key a = k)).length).sum :=
          sumMapAdd _ _ l
      _ = 1 + xs.length := by
          rw [sumIteOne (key x) l hl (hcov x (List.mem_cons_self x xs)),
            ih l hl (fun a ha => hcov a (List.mem_cons_of_mem x ha))]
      _ = (x :: xs).length := by simp; omega

theorem dtLe_total (a b : DateTime) : dtLe a b || dtLe b a := by
  simp only [dtLe, Bool.or_eq_true, decide_eq_true_eq]
  omega

theorem dtLe_trans (a b c : DateTime) : dtLe a b → dtLe b c → dtLe a c := by
  simp only [dtLe, decide_eq_true_eq]
  omega

/-! ## Claims -/

/-- C10: `extract_emojis` is total over arbitrary input: every non-string
input yields `[]` (none of the non-string shapes raises), and a string
input yields exactly the maximal contiguous runs of characters lying in the
fixed codepoint ranges of `EMOJI_PATTERN`. -/
theorem extract_emojis_total_maximal_runs :
    (∀ s : String, extract_emojis (.pyStr s) = (specRuns s.toList).map List.asString)
    ∧ (∀ n : Int, extract_emojis (.pyInt n) = [])
    ∧ (∀ b : Bool, extract_emojis (.pyBool b) = [])
    ∧ extract_emojis .pyNone = [] := by
  refine ⟨fun s => ?_, fun _ => rfl, fun _ => rfl, rfl⟩
  simp [extract_emojis, emojiRunsAux_eq]

/-- C1: the hour-of-day histogram always has exactly 24 buckets (hours
0..23, zero counts present), and on rows whose hour field is in range —
which every parsed timestamp satisfies — the bucket counts sum to the
number of messages. -/
theorem hourHistogram_shape_sum (M : List Row)
    (hval : ∀ r ∈ M, r.time.hour < 24) :
    (hourHistogram M).length = 24 ∧ (hourHistogram M).sum = M.length := by
  constructor
  · simp [hourHistogram]
  · have h := partitionCount (fun r : Row => r.time.hour) M (List.range 24)
      (List.nodup_range 24) (fun r hr => List.mem_range.mpr (hval r hr))
    simpa [hourHistogram] using h

def c1Rows : List Row :=
  [⟨"Alice", "hey", ⟨2023, 6, 15, 9, 30, 0⟩, 3⟩,
   ⟨"Bob", "yo", ⟨2023, 6, 15, 9, 45, 0⟩, 2⟩,
   ⟨"Alice", "ok", ⟨2023, 6, 16, 22, 5, 0⟩, 2⟩]

theorem hourHistogram_shape_sum_witness :
    (hourHistogram c1Rows).length = 24 ∧ (hourHistogram c1Rows).sum = c1Rows.length :=
  hourHistogram_shape_sum c1Rows (by decide)

/-- C2: the sender-frequency table pairs each sender occurring in the
MessageSet with that sender's message count (each sender exactly once), is
sorted descending by count, and its counts sum to the number of
messages. -/
theorem senderFrequency_correct (M : List Row) :
    (∀ p ∈ senderFrequency M, p.2 = countName M p.1)
    ∧ (∀ r ∈ M, r.name ∈ (senderFrequency M).map Prod.fst)
    ∧ ((senderFrequency M).map Prod.fst).Nodup
    ∧ (senderFrequency M).Pairwise (fun a b => b.2 ≤ a.2)
    ∧ ((senderFrequency M).map Prod.snd).sum = M.length := by
  have hperm : List.Perm (senderFrequency M)
      ((M.map Row.name).dedup.map fun s => (s, countName M s)) :=
    List.mergeSort_perm _ _
  have hfst : ((M.map Row.name).dedup.map fun s => (s, countName M s)).map Prod.fst
      = (M.map Row.name).dedup := by
    rw [List.map_map]
    exact List.map_id _
  refine ⟨?_, ?_, ?_, ?_, ?_⟩
  · intro p hp
    have := hperm.mem_iff.mp hp
    rcases List.mem_map.mp this with ⟨s, _, rfl⟩
    rfl
  · intro r hr
    have hs : r.name ∈ (M.map Row.name).dedup :=
      List.mem_dedup.mpr (List.mem_map_of_mem Row.name hr)
    have : r.name ∈ ((M.map Row.name).dedup.map fun s => (s, countName M s)).map Prod.fst := by
      rw [hfst]; exact hs
    exact ((hperm.map Prod.fst).mem_iff).mpr this
  · have := (hperm.map Prod.fst).nodup_iff
    rw [hfst] at this
    exact this.mpr (List.nodup_dedup _)
  · have hs := @List.sorted_mergeSort _ (fun a b : String × Nat => decide (b.2 ≤ a.2))
      (fun a b c hab hbc => by
        simp only [decide_eq_true_eq] at hab hbc ⊢; omega)
      (fun a b => by
        simp only [Bool.or_eq_true, decide_eq_true_eq]; omega)
      ((M.map Row.name).dedup.map fun s => (s, countName M s))
    exact hs.imp (fun h => by simpa using h)
  · have hsum := (hperm.map Prod.snd).sum_eq
    rw [hsum]
    rw [List.map_map]
    have : (Prod.snd ∘ fun s => (s, countName M s)) = fun s => countName M s := rfl
    rw [this]
    exact partitionCount Row.name M ((M.map Row.name).dedup) (List.nodup_dedup _)
      (fun r hr => List.mem_dedup.mpr (List.mem_map_of_mem Row.name hr))

/-- Messages one document contributes. -/
def docMessages : Document → List RawMessage
  | .corrupt _ => []
  | .parsed bs => extractBlocks bs

/-- Warnings one document contributes. -/
def docWarnings : Document → List String
  | .corrupt nm => ["Could not parse file " ++ nm]
  | .parsed _ => []

theorem gmFoldl (docs : List Document) :
    ∀ acc : List RawMessage × List String,
      docs.foldl gmStep acc
        = (acc.1 ++ docs.flatMap docMessages, acc.2 ++ docs.flatMap docWarnings) := by
  induction docs with
  | nil => intro acc; simp
  | cons d docs ih =>
    intro acc
    cases d with
    | corrupt nm =>
      simp [List.foldl_cons, gmStep, ih, docMessages, docWarnings]
    | parsed bs =>
      simp [List.foldl_cons, gmStep, ih, docMessages, docWarnings]

theorem warnCount (docs : List Document) :
    (docs.flatMap docWarnings).length = (docs.filter Document.isCorrupt).length := by
  induction docs with
  | nil => simp
  | cons d docs ih => cases d <;> simp [docWarnings, Document.isCorrupt, ih, List.filter_cons]

def c6Blocks : List Block :=
  [⟨"Alice Hi Jun 15, 2023 3:45 PM", false, some "Alice", some "Hi", some "Jun 15, 2023 3:45 PM"⟩,
   ⟨"Bob Hello Jun 15, 2023 3:46 PM", false, some "Bob", some "Hello", some "Jun 15, 2023 3:46 PM"⟩,
   ⟨"Alice Bye Jun 15, 2023 3:47 PM", false, some "Alice", some "Bye", some "Jun 15, 2023 3:47 PM"⟩]

/-- C6: a decode/parse failure is confined to its document: the result is
always the concatenation of the messages of the documents that parsed,
with exactly one warning per failed document; in particular one corrupt
document next to a valid document holding 3 messages yields exactly 3
messages and exactly 1 warning. -/
theorem perDocument_isolation :
    (∀ docs : List Document,
      (getMessagesDictionary docs).1 = docs.flatMap docMessages
      ∧ (getMessagesDictionary docs).2.length = (docs.filter Document.isCorrupt).length)
    ∧ (getMessagesDictionary [Document.corrupt "message_1.html",
        Document.parsed c6Blocks]).1.length = 3
    ∧ (getMessagesDictionary [Document.corrupt "message_1.html",
        Document.parsed c6Blocks]).2.length = 1 := by
  refine ⟨fun docs => ?_, by decide, by decide⟩
  have h := gmFoldl docs ([], [])
  constructor
  · rw [getMessagesDictionary, h]
    simp
  · rw [getMessagesDictionary, h]
    simpa using warnCount docs

/-- C8: every row of the MessageSet carries a timestamp produced by a
successful normalization of some raw message (raw messages whose
normalization returns null never enter the set), its `length` equals the
character count of its text, and the set is ordered by timestamp
ascending. -/
theorem messageSet_invariants (fb : String → Option DateTime) (msgs : List RawMessage) :
    (∀ r ∈ messageSet fb msgs,
      r.length = r.message.length ∧ ∃ m ∈ msgs, normalizeTime fb m.time = some r.time)
    ∧ (messageSet fb msgs).Pairwise (fun a b => dtLe a.time b.time = true) := by
  constructor
  · intro r hr
    have hr' : r ∈ buildRows fb msgs := (List.mergeSort_perm _ _).mem_iff.mp hr
    rcases List.mem_filterMap.mp hr' with ⟨m, hm, hsome⟩
    rcases Option.map_eq_some'.mp hsome with ⟨dt, hdt, hrow⟩
    subst hrow
    exact ⟨rfl, m, hm, hdt⟩
  · have h := @List.sorted_mergeSort _ (fun a b : Row => dtLe a.time b.time)
      (fun a b c hab hbc => dtLe_trans _ _ _ hab hbc)
      (fun a b => dtLe_total _ _)
      (buildRows fb msgs)
    exact h

/-- C5: the normalizer tries the four fixed formats in their listed order
and returns the first success without consulting later formats, falls back
to the permissive parser exactly when all four fail, and an unparseable
string such as `"not a date"` makes the owning record be dropped — the
normalizer itself returns `none` rather than raising. -/
theorem normalizeTime_policy :
    (∀ (s : String) (dt : DateTime),
      parseFmt1 s.toList = some dt → tryFormats s = some dt)
    ∧ (∀ (s : String) (dt : DateTime), parseFmt1 s.toList = none →
        parseFmt2 s.toList = some dt → tryFormats s = some dt)
    ∧ (∀ (s : String) (dt : DateTime), parseFmt1 s.toList = none →
        parseFmt2 s.toList = none → parseFmt3 s.toList = some dt → tryFormats s = some dt)
    ∧ (∀ (s : String) (dt : DateTime), parseFmt1 s.toList = none →
        parseFmt2 s.toList = none → parseFmt3 s.toList = none →
        parseFmt4 s.toList = some dt → tryFormats s = some dt)
    ∧ (∀ (fb : String → Option DateTime) (s : String),
        tryFormats s = none → normalizeTime fb s = fb s)
    ∧ tryFormats "not a date" = none
    ∧ (∀ (fb : String → Option DateTime) (nm msg : String), fb "not a date" = none →
        buildRows fb [⟨nm, msg, "not a date"⟩] = []) := by
  have hnd : tryFormats "not a date" = none := by decide
  refine ⟨?_, ?_, ?_, ?_, ?_, hnd, ?_⟩
  · intro s dt h
    simp only [String.toList] at h
    simp [tryFormats, h]
  · intro s dt h1 h2
    simp only [String.toList] at h1 h2
    simp [tryFormats, h1, h2]
  · intro s dt h1 h2 h3
    simp only [String.toList] at h1 h2 h3
    simp [tryFormats, h1, h2, h3]
  · intro s dt h1 h2 h3 h4
    simp only [String.toList] at h1 h2 h3 h4
    simp [tryFormats, h1, h2, h3, h4]
  · intro fb s h
    simp [normalizeTime, h]
  · intro fb nm msg hfb
    simp [buildRows, normalizeTime, hnd, hfb]

/-- Witness for C5 at concrete inputs: the first format parses
`"Jan 5, 2023 3:45 PM"` and determines the result, and a record whose
timestamp text is `"not a date"` is dropped under a fallback returning
null. -/
theorem normalizeTime_policy_witness :
    tryFormats "Jan 5, 2023 3:45 PM" = some ⟨2023, 1, 5, 15, 45, 0⟩
    ∧ buildRows (fun _ => none) [⟨"Alice", "hi", "not a date"⟩] = [] :=
  ⟨normalizeTime_policy.1 "Jan 5, 2023 3:45 PM" ⟨2023, 1, 5, 15, 45, 0⟩ (by decide),
   normalizeTime_policy.2.2.2.2.2.2 (fun _ => none) "Alice" "hi" rfl⟩

/-- C7: the day-by-month heatmap has one column for each month present in
the data (no other columns), columns ordered chronologically, and every
column carries counts for all days 1..31 (zero-filled); with a single
message on 2023-06-15 the matrix is one column `"2023-06"` whose only
non-zero cell is day 15 with value 1. -/
theorem heatmap_shape :
    (∀ M : List Row,
      (∀ col ∈ heatmap M, col.2.length = 31)
      ∧ (heatmap M).map Prod.fst = monthsOf M
      ∧ (monthsOf M).Nodup
      ∧ (monthsOf M).Pairwise (fun a b => monthVal a ≤ monthVal b)
      ∧ (∀ r ∈ M, monthStr r.time ∈ monthsOf M)
      ∧ (∀ mo ∈ monthsOf M, ∃ r ∈ M, monthStr r.time = mo))
    ∧ heatmap [⟨"A", "hi", ⟨2023, 6, 15, 10, 0, 0⟩, 2⟩]
        = [("2023-06", (List.range 31).map fun i => if i + 1 = 15 then 1 else 0)] := by
  refine ⟨fun M => ?_, ?_⟩
  case refine_2 =>
    have h1 : (([(⟨"A", "hi", ⟨2023, 6, 15, 10, 0, 0⟩, 2⟩ : Row)].map
        fun r => monthStr r.time).dedup) = ["2023-06"] := by decide
    have h2 : monthsOf [(⟨"A", "hi", ⟨2023, 6, 15, 10, 0, 0⟩, 2⟩ : Row)] = ["2023-06"] := by
      rw [monthsOf, h1]
      exact List.perm_singleton.mp (List.mergeSort_perm _ _)
    simp only [heatmap]
    rw [h2]
    decide
  have hperm : List.Perm (monthsOf M) ((M.map fun r => monthStr r.time).dedup) :=
    List.mergeSort_perm _ _
  refine ⟨?_, ?_, ?_, ?_, ?_, ?_⟩
  · intro col hcol
    rcases List.mem_map.mp hcol with ⟨mo, _, rfl⟩
    simp
  · rw [heatmap, List.map_map]
    exact List.map_id _
  · exact hperm.nodup_iff.mpr (List.nodup_dedup _)
  · have h := @List.sorted_mergeSort _ (fun a b : String => decide (monthVal a ≤ monthVal b))
      (fun a b c hab hbc => by
        simp only [decide_eq_true_eq] at hab hbc ⊢; omega)
      (fun a b => by
        simp only [Bool.or_eq_true, decide_eq_true_eq]; omega)
      ((M.map fun r => monthStr r.time).dedup)
    exact h.imp (fun hab => by simpa using hab)
  · intro r hr
    exact hperm.mem_iff.mpr
      (List.mem_dedup.mpr (List.mem_map_of_mem (fun r => monthStr r.time) hr))
  · intro mo hmo
    have := List.mem_dedup.mp (hperm.mem_iff.mp hmo)
    rcases List.mem_map.mp this with ⟨r, hr, hmr⟩
    exact ⟨r, hr, hmr⟩

def c3Good : Block :=
  ⟨"Alice Hello there Jun 15, 2023 3:45 PM", false,
   some "Alice", some "Hello there", some "Jun 15, 2023 3:45 PM"⟩

def c3Liked : Block :=
  ⟨"Bob Liked a message Jun 15, 2023 3:50 PM", false,
   some "Bob", some "Liked a message", some "Jun 15, 2023 3:50 PM"⟩

def c3Reacted : Block :=
  ⟨"Bob Reacted <3 to your message Jun 15, 2023 3:50 PM", false,
   some "Bob", some "Reacted <3 to your message", some "Jun 15, 2023 3:50 PM"⟩

/-- C3 counterexample: a document holding one well-formed block and one
reaction-notification block phrased `"Liked a message"` (a phrase the spec
lists as a reaction notification) yields 2 raw messages, not 1: the code
only excludes the `"Reacted … to your message"` phrasing (or blocks with a
link), so the `"Liked a message"` block passes through. -/
theorem liked_reaction_not_excluded :
    (extractBlocks [c3Good, c3Liked]).length = 2
    ∧ extractBlocks [c3Good, c3Liked]
        = [⟨"Alice", "Hello there", "Jun 15, 2023 3:45 PM"⟩,
           ⟨"Bob", "Liked a message", "Jun 15, 2023 3:50 PM"⟩] := by
  constructor
  · decide
  · decide

/-- C3 (amended): a block is excluded exactly when its text contains both
`"Reacted"` and `"to your message"` or it has an embedded link; a document
with one well-formed block and one such reaction block yields exactly that
one raw message. -/
theorem reaction_roundtrip (b1 b2 : Block) (n m t : String)
    (h1 : (strContains b1.text "Reacted" && strContains b1.text "to your message") = false)
    (h2 : b1.hasLink = false)
    (h3 : b1.nameTag = some n) (h4 : b1.messageTag = some m) (h5 : b1.timeTag = some t)
    (h6 : strContains b2.text "Reacted" = true)
    (h7 : strContains b2.text "to your message" = true) :
    extractBlocks [b1, b2] = [⟨n, m, t⟩] := by
  simp [extractBlocks, extractBlock, h1, h2, h3, h4, h5, h6, h7]

/-- Witness for C3 (amended) at concrete blocks. -/
theorem reaction_roundtrip_witness :
    extractBlocks [c3Good, c3Reacted]
      = [⟨"Alice", "Hello there", "Jun 15, 2023 3:45 PM"⟩] :=
  reaction_roundtrip c3Good c3Reacted "Alice" "Hello there" "Jun 15, 2023 3:45 PM"
    (by decide) rfl rfl rfl rfl (by decide) (by decide)

def c4LinkBlock : Block :=
  ⟨"Alice You sent an attachment. Jun 15, 2023 3:45 PM", true,
   some "Alice", some "You sent an attachment.", some "Jun 15, 2023 3:45 PM"⟩

/-- C4 counterexample: a block with a valid sender and timestamp that
contains an embedded hyperlink is dropped by the extraction — the code has
no `include_attachments` flag, so no mode of it includes the block with a
synthesized `"Attachment: <link text>"` body as the claim states. -/
theorem link_block_never_included :
    extractBlocks [c4LinkBlock] = [] := by
  decide

/-- C4 (amended): every block containing an embedded hyperlink is excluded
entirely, unconditionally. -/
theorem link_block_excluded (b : Block) (h : b.hasLink = true) :
    extractBlock b = none := by
  simp [extractBlock, h]

/-- Witness for C4 (amended) at a concrete block. -/
theorem link_block_excluded_witness : extractBlock c4LinkBlock = none :=
  link_block_excluded c4LinkBlock rfl

def c9Rows : List Row :=
  [⟨"A", "a", ⟨2023, 6, 5, 1, 0, 0⟩, 1⟩, ⟨"B", "b", ⟨2023, 6, 5, 2, 0, 0⟩, 1⟩,
   ⟨"C", "c", ⟨2023, 6, 5, 3, 0, 0⟩, 1⟩, ⟨"D", "d", ⟨2023, 6, 5, 4, 0, 0⟩, 1⟩,
   ⟨"E", "e", ⟨2023, 6, 5, 5, 0, 0⟩, 1⟩, ⟨"F", "f", ⟨2023, 6, 5, 6, 0, 0⟩, 1⟩]

/-- C9 counterexample: with 6 senders and `top_senders_n = 6` the weekly
series still covers only 5 senders (the 5 is hardcoded, N is not
configurable), and a Tuesday message (2023-06-06) is bucketed under the
following Monday 2023-06-12 (`resample('W-MON')`, week ending Monday), not
under its Monday-start week 2023-06-05. -/
theorem weekly_series_claim_fails :
    (weeklyTopNames c9Rows 6).length = 5
    ∧ weekLabelNum (dayNum 2023 6 6) = dayNum 2023 6 12
    ∧ mondayStartNum (dayNum 2023 6 6) = dayNum 2023 6 5
    ∧ dayNum 2023 6 12 ≠ dayNum 2023 6 5 := by
  refine ⟨?_, by decide, by decide, by decide⟩
  have hd : ((c9Rows.map Row.name).dedup).length = 6 := by decide
  have hlen : (senderFrequency c9Rows).length = 6 := by
    have hp := List.mergeSort_perm
      ((c9Rows.map Row.name).dedup.map fun s => (s, countName c9Rows s))
      (fun a b => decide (b.2 ≤ a.2))
    have hq := hp.length_eq
    rw [senderFrequency, hq, List.length_map, hd]
  simp [weeklyTopNames, List.length_take, hlen]

/-- C9 (amended): the per-sender weekly series is restricted to the first 5
entries of the sender-frequency table (a hardcoded 5: every value of the
`top_senders_n` parameter yields the same restriction), each sender's
series depends only on that sender's rows, and each message is labeled by
the first Monday on or after its date (week-ending-Monday buckets). -/
theorem weeklySeries_code_policy :
    (∀ (M : List Row) (n : Nat),
      weeklyTopNames M n = ((senderFrequency M).map Prod.fst).take 5
      ∧ (weeklyTopNames M n).length ≤ 5)
    ∧ (∀ (M : List Row) (s : String),
      weeklySeriesFor M s = weeklySeriesFor (M.filter fun r => decide (r.name = s)) s)
    ∧ (∀ g : Nat, weekdayM (weekLabelNum g) = 0 ∧ g ≤ weekLabelNum g ∧ weekLabelNum g < g + 7) := by
  refine ⟨fun M n => ⟨rfl, ?_⟩, fun M s => ?_, fun g => ?_⟩
  · simp [weeklyTopNames, List.length_take]
  · simp [weeklySeriesFor, List.filter_filter]
  · simp only [weekdayM, weekLabelNum]
    omega

def c2Rows : List Row :=
  [⟨"A", "hi", ⟨2023, 6, 15, 10, 0, 0⟩, 2⟩,
   ⟨"B", "a", ⟨2023, 6, 15, 10, 1, 0⟩, 1⟩,
   ⟨"B", "b", ⟨2023, 6, 15, 10, 2, 0⟩, 1⟩]

/-- Witness for C2 at a concrete MessageSet: the entry for sender `"B"`
carries B's count, and sender `"A"` appears among the table's keys. -/
theorem senderFrequency_correct_witness :
    2 = countName c2Rows "B"
    ∧ "A" ∈ (senderFrequency c2Rows).map Prod.fst :=
  ⟨(senderFrequency_correct c2Rows).1 ("B", 2)
      ((List.mergeSort_perm _ _).mem_iff.mpr (by decide)),
   (senderFrequency_correct c2Rows).2.1 ⟨"A", "hi", ⟨2023, 6, 15, 10, 0, 0⟩, 2⟩
      (by decide)⟩

/-- Witness for C7 at the concrete single-message MessageSet: the
`"2023-06"` column has 31 day rows, and the message's month is among the
columns. -/
theorem heatmap_shape_witness :
    (("2023-06", (List.range 31).map fun i => if i + 1 = 15 then 1 else 0)
        : String × List Nat).2.length = 31
    ∧ monthStr ⟨2023, 6, 15, 10, 0, 0⟩
        ∈ monthsOf [⟨"A", "hi", ⟨2023, 6, 15, 10, 0, 0⟩, 2⟩] :=
  ⟨(heatmap_shape.1 [⟨"A", "hi", ⟨2023, 6, 15, 10, 0, 0⟩, 2⟩]).1
      ("2023-06", (List.range 31).map fun i => if i + 1 = 15 then 1 else 0)
      (heatmap_shape.2 ▸ List.mem_singleton.mpr rfl),
   (heatmap_shape.1 [⟨"A", "hi", ⟨2023, 6, 15, 10, 0, 0⟩, 2⟩]).2.2.2.2.1
      ⟨"A", "hi", ⟨2023, 6, 15, 10, 0, 0⟩, 2⟩ (by decide)⟩

/-- Witness for C8 at a concrete fallback and raw-message list. -/
theorem messageSet_invariants_witness :
    (⟨"Alice", "hi", ⟨2023, 6, 15, 0, 0, 0⟩, 2⟩ : Row).length
        = (⟨"Alice", "hi", ⟨2023, 6, 15, 0, 0, 0⟩, 2⟩ : Row).message.length
    ∧ ∃ m ∈ [(⟨"Alice", "hi", "2023-06-15"⟩ : RawMessage)],
        normalizeTime (fun _ => none) m.time
          = some (⟨"Alice", "hi", ⟨2023, 6, 15, 0, 0, 0⟩, 2⟩ : Row).time :=
  (messageSet_invariants (fun _ => none) [⟨"Alice", "hi", "2023-06-15"⟩]).1
    ⟨"Alice", "hi", ⟨2023, 6, 15, 0, 0, 0⟩, 2⟩
    ((List.mergeSort_perm _ _).mem_iff.mpr (by decide))
